import Mathlib

/-!
Verification of the chess-position reconstruction engine in pgntools/pgnboard.go.

The Go source is shallowly embedded: every definition below mirrors the
corresponding Go function (names are kept).  Go machine integers are modeled
as Int (all arithmetic used by the engine stays far from overflow), Go's
fixed array [64]int as a List Int of length 64, and Go map lookups return
the Go zero value on a missing key, which the embedding reproduces
explicitly.  Process termination through log.Fatalf is modeled by the
EngineResult.fatal constructor; a Go runtime panic on out-of-range slice
indexing terminates the process just the same, and the one reachable site
(getOriginPawn reading an empty pawn-threat entry) is modeled by the
failure value -1 that the caller maps to that fatal outcome.  Loops are
translated to structural
recursions; a loop bounded by a counter carries that bound as explicit fuel.
-/

-- piece constants (pgnboard.go, const block)
def BKING : Int := -6
def BQUEEN : Int := -5
def BROOK : Int := -4
def BBISHOP : Int := -3
def BKNIGHT : Int := -2
def BPAWN : Int := -1
def BLANK : Int := 0
def WPAWN : Int := 1
def WKNIGHT : Int := 2
def WBISHOP : Int := 3
def WROOK : Int := 4
def WQUEEN : Int := 5
def WKING : Int := 6

/-- Go func contains: true if e occurs in s. -/
def contains (s : List Int) (e : Int) : Bool :=
  match s with
  | [] => false
  | a :: rest => if a = e then true else contains rest e

/-- Go func getColor: -1 for a black piece, +1 otherwise. -/
def getColor (piece : Int) : Int :=
  if piece < 0 then -1 else 1

/-- Go func getPieceIndex.  The Go default branch calls log.Fatal and the
unreachable trailing return yields 0; the embedding returns 0 there. -/
def getPieceIndex (piece : String) : Int :=
  if piece.length = 0 then WPAWN
  else if piece = "N" then WKNIGHT
  else if piece = "B" then WBISHOP
  else if piece = "R" then WROOK
  else if piece = "Q" then WQUEEN
  else if piece = "K" then WKING
  else 0

/-- Character class test for a file letter a-h. -/
def isFileChar (c : Char) : Bool := decide ('a' ≤ c ∧ c ≤ 'h')

/-- Character class test for a rank digit 1-8. -/
def isRankChar (c : Char) : Bool := decide ('1' ≤ c ∧ c ≤ '8')

/-- Whether a string is a two-character literal square coordinate. -/
def isSquareString (s : String) : Bool :=
  match s.data with
  | [f, r] => isFileChar f && isRankChar r
  | _ => false

/-- Go map coords: literal coordinates to board index; a missing key yields
the Go zero value 0. -/
def coords (s : String) : Int :=
  match s.data with
  | [f, r] =>
      if isFileChar f && isRankChar r then
        ((r.toNat : Int) - ('1'.toNat : Int)) * 8 + ((f.toNat : Int) - ('a'.toNat : Int))
      else 0
  | _ => 0

/-- Go map literal: board index to literal coordinates; a missing key yields
the Go zero value, the empty string. -/
def literal (index : Int) : String :=
  if 0 ≤ index ∧ index < 64 then
    String.mk [Char.ofNat ((index % 8).toNat + 'a'.toNat),
               Char.ofNat ((index / 8).toNat + '1'.toNat)]
  else ""

/-- Go func getQualifier: the rank and file qualifier strings of a square. -/
def getQualifier (square : Int) : String × String :=
  (String.mk [Char.ofNat ((square / 8).toNat + '1'.toNat)],
   String.mk [Char.ofNat ((square % 8).toNat + 'a'.toNat)])

-- Threat table (pgnboard.go, getThreat and helpers)

/-- One directional scan loop shared by the slider threat builders: starting
at loc, keep stepping while the boundary test holds and the iteration badge
is below the cap; the cap is carried as structural fuel (fuel = iterations -
iteration, so fuel = 0 is exactly the Go loop guard iteration < iterations
failing). -/
def rayLoop (step : Int) (ok : Int → Bool) : Int → Nat → List Int
  | _, 0 => []
  | loc, fuel + 1 => if ok loc then loc :: rayLoop step ok (loc + step) fuel else []

/-- Go math.MaxInt8, the iteration cap used for unbounded sliders. -/
def maxInt8 : Nat := 127

/-- Go func getBlackPawnThreats. -/
def getBlackPawnThreats (target : Int) : List (List Int) :=
  if target > 47 then []
  else
    let ordinary := [target + 8] ++ (if 32 ≤ target ∧ target ≤ 39 then [target + 16] else [])
    [ordinary]
      ++ (if target % 8 ≠ 0 then [[target + 7]] else [])
      ++ (if target % 8 ≠ 7 then [[target + 9]] else [])

/-- Go func getWhitePawnThreats. -/
def getWhitePawnThreats (target : Int) : List (List Int) :=
  if target < 16 then []
  else
    let ordinary := [target - 8] ++ (if 24 ≤ target ∧ target ≤ 31 then [target - 16] else [])
    [ordinary]
      ++ (if target % 8 ≠ 0 then [[target - 9]] else [])
      ++ (if target % 8 ≠ 7 then [[target - 7]] else [])

/-- Go func getKnightThreats: all eight offsets in one list, each guarded by
its boundary checks. -/
def getKnightThreats (target : Int) : List (List Int) :=
  let ordinary :=
    (if target % 8 ≠ 7 ∧ target / 8 < 6 then [target + 17] else [])
      ++ (if target % 8 ≠ 0 ∧ target / 8 < 6 then [target + 15] else [])
      ++ (if target % 8 ≠ 7 ∧ target / 8 > 1 then [target - 15] else [])
      ++ (if target % 8 ≠ 0 ∧ target / 8 > 1 then [target - 17] else [])
      ++ (if target % 8 < 6 ∧ target / 8 < 7 then [target + 10] else [])
      ++ (if target % 8 > 1 ∧ target / 8 < 7 then [target + 6] else [])
      ++ (if target % 8 < 6 ∧ target / 8 > 0 then [target - 6] else [])
      ++ (if target % 8 > 1 ∧ target / 8 > 0 then [target - 10] else [])
  [ordinary]

/-- Collect a directional ray, keeping it only when non-empty, as the Go
builders do before appending to locations. -/
def keepRay (ray : List Int) : List (List Int) :=
  if ray.length > 0 then [ray] else []

/-- Go func getBishopThreats: the four diagonal rays. -/
def getBishopThreats (target : Int) (iterations : Nat) : List (List Int) :=
  keepRay (rayLoop (-9) (fun loc => decide (loc ≥ 0) && decide (loc % 8 < 7)) (target - 9) iterations)
    ++ keepRay (rayLoop (-7) (fun loc => decide (loc ≥ 0) && decide (loc % 8 > 0)) (target - 7) iterations)
    ++ keepRay (rayLoop 7 (fun loc => decide (loc < 64) && decide (loc % 8 < 7)) (target + 7) iterations)
    ++ keepRay (rayLoop 9 (fun loc => decide (loc < 64) && decide (loc % 8 > 0)) (target + 9) iterations)

/-- Go func getRookThreats: the four orthogonal rays. -/
def getRookThreats (target : Int) (iterations : Nat) : List (List Int) :=
  keepRay (rayLoop (-8) (fun loc => decide (loc ≥ 0)) (target - 8) iterations)
    ++ keepRay (rayLoop 8 (fun loc => decide (loc < 64)) (target + 8) iterations)
    ++ keepRay (rayLoop (-1) (fun loc => decide (loc ≥ 0) && decide (loc % 8 < 7)) (target - 1) iterations)
    ++ keepRay (rayLoop 1 (fun loc => decide (loc < 64) && decide (loc % 8 > 0)) (target + 1) iterations)

/-- Go func getQueenThreats: bishop and rook rays, unbounded. -/
def getQueenThreats (target : Int) : List (List Int) :=
  getBishopThreats target maxInt8 ++ getRookThreats target maxInt8

/-- Go func getKingThreats: bishop and rook rays capped at one step. -/
def getKingThreats (target : Int) : List (List Int) :=
  getBishopThreats target 1 ++ getRookThreats target 1

/-- Go func getThreat: dispatch on the piece; the default branch (log.Fatal)
yields the nil slice. -/
def getThreat (target : Int) (piece : Int) : List (List Int) :=
  if piece = BPAWN then getBlackPawnThreats target
  else if piece = WPAWN then getWhitePawnThreats target
  else if piece = WKNIGHT ∨ piece = BKNIGHT then getKnightThreats target
  else if piece = WBISHOP ∨ piece = BBISHOP then getBishopThreats target maxInt8
  else if piece = WROOK ∨ piece = BROOK then getRookThreats target maxInt8
  else if piece = WQUEEN ∨ piece = BQUEEN then getQueenThreats target
  else if piece = WKING ∨ piece = BKING then getKingThreats target
  else []

/-- Go map threats, built in init() for every literal square and every piece
code -6..6 except BLANK; any other key yields the nil slice. -/
def threats (target : String) (piece : Int) : List (List Int) :=
  if isSquareString target ∧ -6 ≤ piece ∧ piece ≤ 6 ∧ piece ≠ 0 then
    getThreat (coords target) piece
  else []

-- The board (pgnboard.go, type PgnBoard)

/-- Go struct PgnBoard.  The squares array [64]int becomes a List Int of
length 64 (the length is a hypothesis where a theorem needs it). -/
structure PgnBoard where
  squares : List Int
  wking : Int
  bking : Int
  wkcastling : Bool
  wqcastling : Bool
  bkcastling : Bool
  bqcastling : Bool
  turn : Int
deriving DecidableEq, Repr

/-- Read a square.  Go indexes the fixed array directly (out-of-range would
panic); the embedding returns BLANK outside 0..63, a case no embedded caller
reaches on a well-formed board. -/
def PgnBoard.sq (board : PgnBoard) (i : Int) : Int :=
  if i < 0 then 0 else board.squares.getD i.toNat 0

/-- Write a square, same indexing convention as PgnBoard.sq. -/
def PgnBoard.setSq (board : PgnBoard) (i : Int) (v : Int) : PgnBoard :=
  if i < 0 then board else { board with squares := board.squares.set i.toNat v }

/-- Go func InitPgnBoard: the starting position. -/
def InitPgnBoard : PgnBoard :=
  { squares :=
      [WROOK, WKNIGHT, WBISHOP, WQUEEN, WKING, WBISHOP, WKNIGHT, WROOK,
       WPAWN, WPAWN, WPAWN, WPAWN, WPAWN, WPAWN, WPAWN, WPAWN,
       BLANK, BLANK, BLANK, BLANK, BLANK, BLANK, BLANK, BLANK,
       BLANK, BLANK, BLANK, BLANK, BLANK, BLANK, BLANK, BLANK,
       BLANK, BLANK, BLANK, BLANK, BLANK, BLANK, BLANK, BLANK,
       BLANK, BLANK, BLANK, BLANK, BLANK, BLANK, BLANK, BLANK,
       BPAWN, BPAWN, BPAWN, BPAWN, BPAWN, BPAWN, BPAWN, BPAWN,
       BROOK, BKNIGHT, BBISHOP, BQUEEN, BKING, BBISHOP, BKNIGHT, BROOK],
    wking := 4,
    bking := 60,
    wkcastling := true, wqcastling := true,
    bkcastling := true, bqcastling := true,
    turn := 1 }

-- FEN serialization (pgnboard.go, GetFen)

/-- The switch in GetFen mapping a piece to its FEN letter; BLANK (and the
impossible codes) contribute no letter. -/
def pieceFen (square : Int) : String :=
  if square = WPAWN then "P" else if square = BPAWN then "p"
  else if square = WKNIGHT then "N" else if square = BKNIGHT then "n"
  else if square = WBISHOP then "B" else if square = BBISHOP then "b"
  else if square = WROOK then "R" else if square = BROOK then "r"
  else if square = WQUEEN then "Q" else if square = BQUEEN then "q"
  else if square = WKING then "K" else if square = BKING then "k"
  else ""

/-- The inner column loop of GetFen over j = 0..7 (fuel 8), carrying the
empty-square run counter. -/
def fenSquares (board : PgnBoard) (i : Int) : Int → Nat → Nat → String
  | _, _, 0 => ""
  | j, emptySquares, fuel + 1 =>
    let square := board.sq (i * 8 + j)
    let emptySquares1 := if square = BLANK then emptySquares + 1 else emptySquares
    let flush : Bool := decide (emptySquares1 ≠ 0) &&
      (decide (j = 7) || decide (board.sq (i * 8 + j + 1) ≠ BLANK))
    pieceFen square
      ++ (if flush then toString emptySquares1 else "")
      ++ fenSquares board i (j + 1) (if flush then 0 else emptySquares1) fuel

/-- The outer row loop of GetFen from i = 7 down to 0 (fuel 8), appending a
slash after every row but the last. -/
def fenRows (board : PgnBoard) : Int → Nat → String
  | _, 0 => ""
  | i, fuel + 1 =>
      fenSquares board i 0 0 8 ++ (if i ≠ 0 then "/" else "")
        ++ fenRows board (i - 1) fuel

/-- Go method GetFen: placement field, side to move, castling rights. -/
def GetFen (board : PgnBoard) : String :=
  fenRows board 7 8
    ++ (if board.turn = 1 then " w " else if board.turn = -1 then " b " else "")
    ++ (if board.wkcastling then "K" else "")
    ++ (if board.wqcastling then "Q" else "")
    ++ (if board.bkcastling then "k" else "")
    ++ (if board.bqcastling then "q" else "")
    ++ (if ¬(board.wkcastling ∨ board.wqcastling ∨ board.bkcastling ∨ board.bqcastling)
        then "-" else "")

-- Notation decoder (pgnboard.go, reTextualMove)
-- The Go pattern is
--   ([PNBRQK]?)([a-h]?[1-8]?)(x?)([a-h][1-8]|[NBRQK])(\=[PNBRQK])?|(O(?:-?O){1,2})[\+#]?(\s*[\!\?]+)?
-- matched with Go regexp semantics: scan start positions left to right and,
-- at the first position admitting a match, take the one a backtracking
-- search finds first (left alternative preferred, optional pieces greedy).
-- The functions below hand-compile exactly this search order.

/-- Character class [PNBRQK] of group 1. -/
def isPieceLetter (c : Char) : Bool :=
  c == 'P' || c == 'N' || c == 'B' || c == 'R' || c == 'Q' || c == 'K'

/-- Character class [NBRQK], the second alternative of group 4. -/
def isTargetLetter (c : Char) : Bool :=
  c == 'N' || c == 'B' || c == 'R' || c == 'Q' || c == 'K'

/-- Character class of the RE2 escape for whitespace. -/
def isSpaceChar (c : Char) : Bool :=
  c == ' ' || c == '\t' || c == '\n' || c == Char.ofNat 12 || c == '\r'

/-- Character class [!?] of group 7. -/
def isBangChar (c : Char) : Bool := c == '!' || c == '?'

/-- The capture groups of reTextualMove, in Go's FindStringSubmatch order;
a group that did not participate holds the empty string. -/
structure MoveMatch where
  g1 : String
  g2 : String
  g3 : String
  g4 : String
  g5 : String
  g6 : String
  g7 : String
deriving DecidableEq, Repr, Inhabited

/-- Alternatives of a single optional character class, greedy first: consume
the character when the class matches, else leave the input unchanged. -/
def optTake (p : Char → Bool) (cs : List Char) : List (String × List Char) :=
  match cs with
  | [] => [("", [])]
  | c :: rest => if p c then [(String.mk [c], rest), ("", c :: rest)] else [("", c :: rest)]

/-- Group 4, preferring the two-character square over the bare piece letter. -/
def matchG4 (cs : List Char) : Option (String × List Char) :=
  match cs with
  | c1 :: c2 :: rest =>
      if isFileChar c1 && isRankChar c2 then some (String.mk [c1, c2], rest)
      else if isTargetLetter c1 then some (String.mk [c1], c2 :: rest)
      else none
  | [c1] => if isTargetLetter c1 then some (String.mk [c1], []) else none
  | [] => none

/-- Group 5, the optional promotion suffix. -/
def matchG5 (cs : List Char) : String × List Char :=
  match cs with
  | '=' :: p :: rest =>
      if isPieceLetter p then (String.mk ['=', p], rest) else ("", '=' :: p :: rest)
  | _ => ("", cs)

/-- The left alternative of the pattern (groups 1-5) at a fixed start
position, in backtracking preference order. -/
def matchAltA (cs : List Char) : Option MoveMatch :=
  (optTake isPieceLetter cs).findSome? fun g1r =>
    (optTake isFileChar g1r.2).findSome? fun g2ar =>
      (optTake isRankChar g2ar.2).findSome? fun g2br =>
        (optTake (fun c => c == 'x') g2br.2).findSome? fun g3r =>
          (matchG4 g3r.2).map fun g4r =>
            { g1 := g1r.1, g2 := g2ar.1 ++ g2br.1, g3 := g3r.1, g4 := g4r.1,
              g5 := (matchG5 g4r.2).1, g6 := "", g7 := "" }

/-- One repetition of (?:-?O), hyphen preferred when it can be followed by O. -/
def matchRepO (cs : List Char) : Option (String × List Char) :=
  match cs with
  | '-' :: 'O' :: rest => some ("-O", rest)
  | 'O' :: rest => some ("O", rest)
  | _ => none

/-- Group 7, the optional whitespace-then-annotation suffix; the whitespace
class and the annotation class are disjoint, so greedy consumption needs no
backtracking. -/
def matchG7 (cs : List Char) : String :=
  let spaces := cs.takeWhile isSpaceChar
  let bangs := (cs.dropWhile isSpaceChar).takeWhile isBangChar
  if bangs.length > 0 then String.mk (spaces ++ bangs) else ""

/-- The right alternative of the pattern (castling, group 6, with its
optional check and annotation suffixes) at a fixed start position. -/
def matchAltB (cs : List Char) : Option MoveMatch :=
  match cs with
  | 'O' :: rest =>
      match matchRepO rest with
      | some r1 =>
          let g6rest : String × List Char :=
            match matchRepO r1.2 with
            | some r2 => ("O" ++ r1.1 ++ r2.1, r2.2)
            | none => ("O" ++ r1.1, r1.2)
          let rest2 : List Char :=
            match g6rest.2 with
            | c :: r => if c == '+' || c == '#' then r else c :: r
            | [] => []
          some { g1 := "", g2 := "", g3 := "", g4 := "", g5 := "",
                 g6 := g6rest.1, g7 := matchG7 rest2 }
      | none => none
  | _ => none

/-- Try both top-level alternatives at one start position, left first. -/
def matchHere (cs : List Char) : Option MoveMatch :=
  match matchAltA cs with
  | some m => some m
  | none => matchAltB cs

/-- Scan start positions left to right; neither alternative matches the
empty suffix, so stopping at the empty list is exact. -/
def findMatch : List Char → Option MoveMatch
  | [] => none
  | c :: rest =>
      match matchHere (c :: rest) with
      | some m => some m
      | none => findMatch rest

/-- Go reTextualMove.MatchString. -/
def matchString (s : String) : Bool := (findMatch s.data).isSome

/-- Go reTextualMove.FindStringSubmatch, called only under MatchString;
the default value stands in for Go's nil result outside that guard. -/
def findStringSubmatch (s : String) : MoveMatch := (findMatch s.data).getD default

-- Pin detection (pgnboard.go, isPinnedGeneric / isPinned)

/-- The inner loop of isPinnedGeneric over one directional threat list,
carrying the found flag; threat is the whole ray (for the contains test on
the destination) while the first list argument is the part still to walk. -/
def pinScanRay (board : PgnBoard) (location dest attacker : Int) (threat : List Int) :
    List Int → Bool → Bool
  | [], _ => false
  | square :: rest, found =>
    if square = location then pinScanRay board location dest attacker threat rest true
    else if found = true ∧ contains threat dest = false ∧
        (board.sq square = attacker ∨ board.sq square = WQUEEN * getColor attacker) then true
    else if board.sq square ≠ BLANK then false
    else pinScanRay board location dest attacker threat rest found

/-- Go method isPinnedGeneric: some direction from the king pins location. -/
def isPinnedGeneric (board : PgnBoard) (location dest attacker : Int)
    (threatList : List (List Int)) : Bool :=
  threatList.any fun threat => pinScanRay board location dest attacker threat threat false

/-- Go method isPinned: check the bishop rays and the rook rays from the
friendly king of the piece standing on location. -/
def isPinned (board : PgnBoard) (location dest : Int) : Bool :=
  if getColor (board.sq location) < 0 then
    isPinnedGeneric board location dest WBISHOP (threats (literal board.bking) WBISHOP)
      || isPinnedGeneric board location dest WROOK (threats (literal board.bking) WROOK)
  else
    isPinnedGeneric board location dest BBISHOP (threats (literal board.wking) BBISHOP)
      || isPinnedGeneric board location dest BROOK (threats (literal board.wking) BROOK)

-- Origin resolution (pgnboard.go, getOriginPawn / getOriginKnight /
-- getOriginGeneric / getOrigin)

/-- Go method getOriginPawn.  Go indexes the pawn threat lists of the
target directly; when a list it reads is missing or empty (a pawn capture
or advance aimed at a rank no pawn of that color can reach, so the threat
entry is empty), that indexing panics with an out-of-range runtime error
and the process dies.  A panic, like log.Fatalf, terminates the process,
so each such indexing is guarded here and modeled by the failure value -1,
which the caller turns into the fatal outcome; the two log.Fatalf branches
are modeled by -1 in the same way. -/
def getOriginPawn (board : PgnBoard) (piece : Int) (target qualifier : String)
    (capture : Bool) : Int :=
  if capture then
    if (threats target piece).length ≤ 1 then -1
    else if ((threats target piece).getD 1 []).length = 0 then -1
    else
      let first := ((threats target piece).getD 1 []).getD 0 0
      if (getQualifier first).2 = qualifier ∧ board.sq first = piece then first
      else if (threats target piece).length > 2 then
        if ((threats target piece).getD 2 []).length = 0 then -1
        else
          let second := ((threats target piece).getD 2 []).getD 0 0
          if (getQualifier second).2 = qualifier ∧ board.sq second = piece then second
          else -1
      else -1
  else
    if (threats target piece).length = 0 then -1
    else if ((threats target piece).getD 0 []).length = 0 then -1
    else
      if board.sq (((threats target piece).getD 0 []).getD 0 0) = piece then
        ((threats target piece).getD 0 []).getD 0 0
      else if ((threats target piece).getD 0 []).length > 1 ∧
          board.sq (((threats target piece).getD 0 []).getD 1 0) = piece then
        ((threats target piece).getD 0 []).getD 1 0
      else -1

/-- The loop of getOriginKnight over the single knight threat list: skip
squares not holding the knight, skip pinned knights, accept the first
candidate satisfying the qualifier (an absent qualifier accepts). -/
def knightScan (board : PgnBoard) (piece targetIdx : Int) (qualifier : String) :
    List Int → Int
  | [] => -1
  | loc :: rest =>
    if board.sq loc = piece then
      if isPinned board loc targetIdx then knightScan board piece targetIdx qualifier rest
      else if qualifier.length = 0 ∨ (qualifier.length > 0 ∧
          ((getQualifier loc).1 = qualifier ∨ (getQualifier loc).2 = qualifier)) then loc
      else knightScan board piece targetIdx qualifier rest
    else knightScan board piece targetIdx qualifier rest

/-- Go method getOriginKnight (capture is unused there too). -/
def getOriginKnight (board : PgnBoard) (piece : Int) (target qualifier : String)
    (capture : Bool) : Int :=
  knightScan board piece (coords target) qualifier ((threats target piece).getD 0 [])

/-- The inner loop of getOriginGeneric over one direction: a pinned matching
piece is skipped with continue (the break test is not reached), any other
occupied square ends the direction. -/
def genericScanDir (board : PgnBoard) (piece targetIdx : Int) (qualifier : String) :
    List Int → Option Int
  | [] => none
  | loc :: rest =>
    if board.sq loc = piece then
      if isPinned board loc targetIdx then genericScanDir board piece targetIdx qualifier rest
      else if qualifier.length = 0 ∨ (qualifier.length > 0 ∧
          ((getQualifier loc).1 = qualifier ∨ (getQualifier loc).2 = qualifier)) then some loc
      else if board.sq loc ≠ BLANK then none
      else genericScanDir board piece targetIdx qualifier rest
    else if board.sq loc ≠ BLANK then none
    else genericScanDir board piece targetIdx qualifier rest

/-- The outer loop of getOriginGeneric over the directions. -/
def genericScanDirs (board : PgnBoard) (piece targetIdx : Int) (qualifier : String) :
    List (List Int) → Int
  | [] => -1
  | direction :: rest =>
    match genericScanDir board piece targetIdx qualifier direction with
    | some loc => loc
    | none => genericScanDirs board piece targetIdx qualifier rest

/-- Go method getOriginGeneric (bishops, rooks, queens and kings). -/
def getOriginGeneric (board : PgnBoard) (piece : Int) (target qualifier : String)
    (capture : Bool) : Int :=
  genericScanDirs board piece (coords target) qualifier (threats target piece)

/-- Go method getOrigin.  In Go each arm calls log.Fatalf when the helper
returned a negative value; the process abort is modeled at the caller
UpdateBoard, which tests origin < 0 and produces the fatal outcome. -/
def getOrigin (board : PgnBoard) (piece : Int) (target qualifier : String)
    (capture : Bool) : Int :=
  if piece = WPAWN ∨ piece = BPAWN then getOriginPawn board piece target qualifier capture
  else if piece = WKNIGHT ∨ piece = BKNIGHT then
    getOriginKnight board piece target qualifier capture
  else getOriginGeneric board piece target qualifier capture

-- Board mutation (pgnboard.go, updateShortCastling / updateLongCastling /
-- UpdateBoard)

/-- Go method updateShortCastling. -/
def updateShortCastling (board : PgnBoard) (color : Int) : PgnBoard :=
  if color < 0 then
    let b := ((((board.setSq (coords "e8") BLANK).setSq (coords "h8") BLANK).setSq
      (coords "f8") BROOK).setSq (coords "g8") BKING)
    { b with bking := coords "g8" }
  else
    let b := ((((board.setSq (coords "e1") BLANK).setSq (coords "h1") BLANK).setSq
      (coords "f1") WROOK).setSq (coords "g1") WKING)
    { b with wking := coords "g1" }

/-- Go method updateLongCastling. -/
def updateLongCastling (board : PgnBoard) (color : Int) : PgnBoard :=
  if color < 0 then
    let b := ((((board.setSq (coords "e8") BLANK).setSq (coords "a8") BLANK).setSq
      (coords "d8") BROOK).setSq (coords "c8") BKING)
    { b with bking := coords "c8" }
  else
    let b := ((((board.setSq (coords "e1") BLANK).setSq (coords "a1") BLANK).setSq
      (coords "d1") WROOK).setSq (coords "c1") WKING)
    { b with wking := coords "c1" }

/-- The castling-ability block duplicated in both castling branches of
UpdateBoard; it tests board.turn, which was already flipped to the side to
move next. -/
def clearCastlingFlags (board : PgnBoard) : PgnBoard :=
  if board.turn = 1 then { board with wkcastling := false, wqcastling := false }
  else if board.turn = -1 then { board with bkcastling := false, bqcastling := false }
  else board

/-- The first castling-ability maintenance block of UpdateBoard (the one
guarded by White's remaining rights), lines 1004-1022 of pgnboard.go,
including its literal origin indices 63 and 56. -/
def applyCastlingFlagsWhite (board : PgnBoard) (m1 : String) (origin : Int) : PgnBoard :=
  if board.wkcastling ∨ board.wqcastling then
    if getPieceIndex m1 = WKING then { board with wkcastling := false, wqcastling := false }
    else if getPieceIndex m1 = WROOK ∧ origin = 63 then { board with wkcastling := false }
    else if getPieceIndex m1 = WROOK ∧ origin = 56 then { board with wqcastling := false }
    else board
  else board

/-- The second castling-ability maintenance block of UpdateBoard (guarded by
Black's remaining rights), lines 1025-1045 of pgnboard.go, including the
comparison of getPieceIndex with BROOK and the assignment to wqcastling. -/
def applyCastlingFlagsBlack (board : PgnBoard) (m1 : String) (color origin : Int) : PgnBoard :=
  if board.bkcastling ∨ board.bqcastling then
    if m1 = "K" ∧ color < 0 then { board with bkcastling := false, bqcastling := false }
    else if getPieceIndex m1 = BROOK ∧ origin = 7 then { board with bkcastling := false }
    else if getPieceIndex m1 = WROOK ∧ origin = 0 then { board with wqcastling := false }
    else board
  else board

/-- Go struct PgnMove (pgngame.go).  The emt field, a float32 elapsed move
time never read by the board engine, is left out of the embedding. -/
structure PgnMove where
  number : Int
  color : Int
  moveValue : String
  comments : String
deriving DecidableEq, Repr

/-- Outcome of UpdateBoard: the mutated board, or process termination by
log.Fatalf, which the embedding reifies as the fatal constructor. -/
inductive EngineResult where
  | ok (board : PgnBoard)
  | fatal (msg : String)
deriving DecidableEq, Repr

/-- Go method UpdateBoard (the showmoves printing has no board effect and is
dropped).  The branch structure, including which castling flags each branch
touches and the literal origin indices, follows the source line by line. -/
def UpdateBoard (board : PgnBoard) (move : PgnMove) : EngineResult :=
  if matchString move.moveValue then
    let board1 := { board with turn := -1 * move.color }
    let m := findStringSubmatch move.moveValue
    if m.g6 = "O-O" then
      EngineResult.ok (updateShortCastling (clearCastlingFlags board1) move.color)
    else if m.g6 = "O-O-O" then
      EngineResult.ok (updateLongCastling (clearCastlingFlags board1) move.color)
    else
      let origin := getOrigin board1 (getPieceIndex m.g1 * move.color) m.g4 m.g2 (m.g3 = "x")
      if origin < 0 then
        EngineResult.fatal ("It was not possible to reproduce the move " ++ move.moveValue)
      else
        let board2 := board1.setSq origin BLANK
        let board3 :=
          if m.g5.length > 0 then
            board2.setSq (coords m.g4)
              (getPieceIndex (String.mk [m.g5.data.getD 1 'P']) * move.color)
          else
            let board2a :=
              if getPieceIndex m.g1 = WPAWN ∧ m.g3 = "x" ∧ board2.sq (coords m.g4) = BLANK then
                if move.color > 0 then board2.setSq (coords m.g4 - 8) BLANK
                else board2.setSq (coords m.g4 + 8) BLANK
              else board2
            let board2b := board2a.setSq (coords m.g4) (getPieceIndex m.g1 * move.color)
            if m.g1 = "K" then
              if move.color < 0 then { board2b with bking := coords m.g4 }
              else { board2b with wking := coords m.g4 }
            else board2b
        EngineResult.ok
          (applyCastlingFlagsBlack (applyCastlingFlagsWhite board3 m.g1 origin)
            m.g1 move.color origin)
  else EngineResult.fatal ("\t " ++ move.moveValue ++ " not parsed")

-- Declarative pin predicates (for claim C5), stated over the same king-ray
-- table the code consults

/-- One king ray pins location structurally: the ray splits as the clear
squares before location, location itself, the clear squares behind it, and
then the first occupied square, holding the attacker or the queen of the
attacker's color. -/
def pinnedRayThrough (board : PgnBoard) (location attacker : Int) (ray : List Int)
    (pre mid : List Int) (x : Int) (post : List Int) : Prop :=
  ray = pre ++ location :: (mid ++ x :: post) ∧
    (∀ y ∈ pre, board.sq y = BLANK) ∧ (∀ y ∈ mid, board.sq y = BLANK) ∧
    (board.sq x = attacker ∨ board.sq x = WQUEEN * getColor attacker)

/-- A ray pins location for a move to dest, with the exception the code
implements: the pin is discounted whenever dest lies anywhere on the ray. -/
def pinnedRaySpec (board : PgnBoard) (location dest attacker : Int) (ray : List Int) : Prop :=
  dest ∉ ray ∧ ∃ pre mid x post, pinnedRayThrough board location attacker ray pre mid x post

/-- Modelled from the claim's words for C5: as pinnedRaySpec, but the
exception only discounts a dest lying between the pinning piece and the
king on the ray (the squares before the pinner, location included). -/
def pinnedRayPerClaim (board : PgnBoard) (location dest attacker : Int) (ray : List Int) : Prop :=
  ∃ pre mid x post, pinnedRayThrough board location attacker ray pre mid x post ∧
    dest ∉ pre ++ location :: mid

/-- Declarative counterpart of isPinned with the code's exception: some
bishop-geometry or rook-geometry ray from the friendly king pins location. -/
def pinnedSpec (board : PgnBoard) (location dest : Int) : Prop :=
  if getColor (board.sq location) < 0 then
    (∃ ray ∈ threats (literal board.bking) WBISHOP, pinnedRaySpec board location dest WBISHOP ray)
      ∨ (∃ ray ∈ threats (literal board.bking) WROOK, pinnedRaySpec board location dest WROOK ray)
  else
    (∃ ray ∈ threats (literal board.wking) BBISHOP, pinnedRaySpec board location dest BBISHOP ray)
      ∨ (∃ ray ∈ threats (literal board.wking) BROOK, pinnedRaySpec board location dest BROOK ray)

/-- Modelled from the claim's words for C5: the biconditional condition the
claim states for isPinned, with its narrower between-pinner-and-king
exception. -/
def pinnedPerClaim (board : PgnBoard) (location dest : Int) : Prop :=
  if getColor (board.sq location) < 0 then
    (∃ ray ∈ threats (literal board.bking) WBISHOP, pinnedRayPerClaim board location dest WBISHOP ray)
      ∨ (∃ ray ∈ threats (literal board.bking) WROOK, pinnedRayPerClaim board location dest WROOK ray)
  else
    (∃ ray ∈ threats (literal board.wking) BBISHOP, pinnedRayPerClaim board location dest BBISHOP ray)
      ∨ (∃ ray ∈ threats (literal board.wking) BROOK, pinnedRayPerClaim board location dest BROOK ray)

-- Geometric wellformedness of the threat tables (for claim C7)

/-- Row of a square index. -/
def rowOf (i : Int) : Int := i / 8

/-- Column of a square index. -/
def colOf (i : Int) : Int := i % 8

/-- Whether a (row, column) pair lies on the board. -/
def onBoardRC (r c : Int) : Bool := decide (0 ≤ r ∧ r < 8 ∧ 0 ≤ c ∧ c < 8)

/-- Whether a square index lies on the board. -/
def onBoardSq (i : Int) : Bool := decide (0 ≤ i ∧ i < 64)

/-- The ray lies along the single direction (dr, dc) away from target: its
k-th entry sits exactly k+1 steps out in row and column terms and on the
board, so entries are sorted by increasing distance and never wrap around a
board edge. -/
def rayAlong (target dr dc : Int) (ray : List Int) : Bool :=
  (List.range ray.length).all fun k =>
    decide (ray.getD k 99 = target + ((k : Int) + 1) * (8 * dr + dc))
      && onBoardRC (rowOf target + ((k : Int) + 1) * dr) (colOf target + ((k : Int) + 1) * dc)

/-- The four diagonal directions. -/
def diagDirs : List (Int × Int) := [(1, 1), (1, -1), (-1, 1), (-1, -1)]

/-- The four orthogonal directions. -/
def orthDirs : List (Int × Int) := [(1, 0), (-1, 0), (0, 1), (0, -1)]

/-- All eight slider directions. -/
def slidingDirs : List (Int × Int) := diagDirs ++ orthDirs

/-- A full sliding ray: along one direction of dirs and maximal, in that the
next step past its last entry would leave the board. -/
def slidingRayOk (target : Int) (dirs : List (Int × Int)) (ray : List Int) : Bool :=
  dirs.any fun d =>
    rayAlong target d.1 d.2 ray
      && !(onBoardRC (rowOf target + ((ray.length : Int) + 1) * d.1)
            (colOf target + ((ray.length : Int) + 1) * d.2))

/-- A king ray: along one direction and of length at most one. -/
def kingRayOk (target : Int) (ray : List Int) : Bool :=
  decide (ray.length ≤ 1) && slidingDirs.any fun d => rayAlong target d.1 d.2 ray

/-- loc is a knight move away from target. -/
def knightDelta (target loc : Int) : Bool :=
  let dr := rowOf loc - rowOf target
  let dc := colOf loc - colOf target
  decide ((dr * dr = 1 ∧ dc * dc = 4) ∨ (dr * dr = 4 ∧ dc * dc = 1))

/-- The twelve piece codes the threat table is built for. -/
def allPieceCodes : List Int := [-6, -5, -4, -3, -2, -1, 1, 2, 3, 4, 5, 6]

/-- The whole geometric wellformedness check of claim C7 over every target
square: all listed origins of every piece kind are on-board, sliding rays
are single-direction, distance-sorted and edge-maximal, king rays hold at
most one square, and knight origins form a single ray of knight moves. -/
def threatTablesOk : Bool :=
  (List.range 64).all fun t0 =>
    let t : Int := t0
    allPieceCodes.all (fun p => (getThreat t p).all fun ray => ray.all onBoardSq)
      && (getBishopThreats t maxInt8).all (slidingRayOk t diagDirs)
      && (getRookThreats t maxInt8).all (slidingRayOk t orthDirs)
      && (getQueenThreats t).all (slidingRayOk t slidingDirs)
      && (getKingThreats t).all (kingRayOk t)
      && decide ((getKnightThreats t).length = 1)
      && (getKnightThreats t).all fun ray => ray.all fun loc => knightDelta t loc

-- Concrete boards used by individual claims

/-- The initial position with f1 and g1 cleared, ready for White O-O (C2). -/
def boardC2 : PgnBoard :=
  { InitPgnBoard with squares := (InitPgnBoard.squares.set 5 BLANK).set 6 BLANK }

/-- The initial position with the h2 pawn removed, so the h1 rook can move
up the h file (C3). -/
def boardC3a : PgnBoard :=
  { InitPgnBoard with squares := InitPgnBoard.squares.set 15 BLANK }

/-- The initial position after the e7 pawn stepped to e6, so the black king
can move to e7 while both sides retain every castling right (C3). -/
def boardC3b : PgnBoard :=
  { InitPgnBoard with squares := (InitPgnBoard.squares.set 52 BLANK).set 44 BPAWN }

/-- White king e1, white rook e4, black rook e7, black king g8: the e4 rook
is pinned on the e file (C5). -/
def boardC5 : PgnBoard :=
  { squares := ((((List.replicate 64 (0 : Int)).set 4 WKING).set 28 WROOK).set 52 BROOK).set 62 BKING,
    wking := 4, bking := 62, wkcastling := true, wqcastling := true,
    bkcastling := true, bqcastling := true, turn := 1 }

/-- White king e1, white knight e4 (pinned by the e7 rook), black king g8:
the only knight that reaches c3 is pinned (C6 counterexample). -/
def boardC6 : PgnBoard :=
  { squares := ((((List.replicate 64 (0 : Int)).set 4 WKING).set 28 WKNIGHT).set 52 BROOK).set 62 BKING,
    wking := 4, bking := 62, wkcastling := true, wqcastling := true,
    bkcastling := true, bqcastling := true, turn := 1 }

/-- As boardC6 with a second, unpinned white knight on b1: one pinned and
one unpinned knight both reach c3 (C6 witness). -/
def boardC6w : PgnBoard :=
  { boardC6 with squares := boardC6.squares.set 1 WKNIGHT }

/-- Initial position after the white e pawn reached e5 and Black answered
d7-d5: the en passant capture exd6 is available (C8 witness). -/
def boardC8 : PgnBoard :=
  { InitPgnBoard with squares :=
      (((InitPgnBoard.squares.set 12 BLANK).set 36 WPAWN).set 51 BLANK).set 35 BPAWN }

/-- Initial board with the white kingside right already revoked (C9
witness input). -/
def boardC9 : PgnBoard := { InitPgnBoard with wkcastling := false }

/-- The board UpdateBoard produces from boardC9 for Black's O-O (C9
witness output). -/
def boardC9r : PgnBoard :=
  { squares :=
      [WROOK, WKNIGHT, WBISHOP, WQUEEN, WKING, WBISHOP, WKNIGHT, WROOK,
       WPAWN, WPAWN, WPAWN, WPAWN, WPAWN, WPAWN, WPAWN, WPAWN,
       BLANK, BLANK, BLANK, BLANK, BLANK, BLANK, BLANK, BLANK,
       BLANK, BLANK, BLANK, BLANK, BLANK, BLANK, BLANK, BLANK,
       BLANK, BLANK, BLANK, BLANK, BLANK, BLANK, BLANK, BLANK,
       BLANK, BLANK, BLANK, BLANK, BLANK, BLANK, BLANK, BLANK,
       BPAWN, BPAWN, BPAWN, BPAWN, BPAWN, BPAWN, BPAWN, BPAWN,
       BROOK, BKNIGHT, BBISHOP, BQUEEN, BLANK, BROOK, BKING, BLANK],
    wking := 4, bking := 62, wkcastling := false, wqcastling := false,
    bkcastling := true, bqcastling := true, turn := 1 }

/-- Flag monotonicity relation of claim C9: every castling-rights flag that
is false in the first board is still false in the second. -/
def rightsMono (b b' : PgnBoard) : Prop :=
  (b.wkcastling = false → b'.wkcastling = false) ∧
  (b.wqcastling = false → b'.wqcastling = false) ∧
  (b.bkcastling = false → b'.bkcastling = false) ∧
  (b.bqcastling = false → b'.bqcastling = false)

-- Helper lemmas

/-- The Go contains helper agrees with list membership. -/
theorem contains_iff_mem (s : List Int) (e : Int) : contains s e = true ↔ e ∈ s := by
  induction s with
  | nil => simp [contains]
  | cons a rest ih =>
      by_cases h : a = e
      · simp [contains, h]
      · simp only [contains, if_neg h, ih, List.mem_cons]
        exact ⟨Or.inr, fun hc => hc.elim (fun he => absurd he.symm h) id⟩

/-- The rank qualifier string of a square is one character long. -/
theorem getQualifier_fst_length (square : Int) : (getQualifier square).1.length = 1 := rfl

/-- The file qualifier string of a square is one character long. -/
theorem getQualifier_snd_length (square : Int) : (getQualifier square).2.length = 1 := rfl

/-- Strings of different lengths differ. -/
theorem String.ne_of_length_ne {s t : String} (h : s.length ≠ t.length) : s ≠ t :=
  fun he => h (he ▸ rfl)

-- C1

/-- C1: GetFen of the freshly created initial board is the standard starting
FEN placement field with side w and rights KQkq. -/
theorem C1_initial_fen :
    GetFen InitPgnBoard = "rnbqkbnr/pppppppp/8/8/8/8/PPPPPPPP/RNBQKBNR w KQkq" := by
  decide

-- C2

/-- C2 (code behavior at the claim's failing input): on the initial board
with f1 and g1 cleared, White's O-O does relocate king and rook and update
the cached king square, but it leaves both of White's castling-rights flags
true and sets both of Black's to false — the converse of the claim, because
the code tests board.turn after flipping it to the side to move next. -/
theorem C2_short_castling_behavior :
    ∃ b : PgnBoard, UpdateBoard boardC2 ⟨1, 1, "O-O", ""⟩ = EngineResult.ok b ∧
      b.sq 6 = WKING ∧ b.sq 5 = WROOK ∧ b.sq 4 = BLANK ∧ b.sq 7 = BLANK ∧ b.wking = 6 ∧
      b.wkcastling = true ∧ b.wqcastling = true ∧ b.bkcastling = false ∧ b.bqcastling = false := by
  refine ⟨_, rfl, ?_, ?_, ?_, ?_, ?_, ?_, ?_, ?_, ?_⟩ <;> decide

-- C3

/-- C3 (code behavior at the claim's failing inputs): moving the white rook
from its home corner h1 = 7 revokes nothing (the White block compares the
origin against 63 and 56), and a black king move revokes White's rights as
well as Black's (the White block tests only the piece letter, not the
color). -/
theorem C3_rights_maintenance_behavior :
    (∃ b : PgnBoard, UpdateBoard boardC3a ⟨1, 1, "Rh3", ""⟩ = EngineResult.ok b ∧
      b.sq 7 = BLANK ∧ b.sq 23 = WROOK ∧
      b.wkcastling = true ∧ b.wqcastling = true ∧ b.bkcastling = true ∧ b.bqcastling = true) ∧
    (∃ b : PgnBoard, UpdateBoard boardC3b ⟨2, -1, "Ke7", ""⟩ = EngineResult.ok b ∧
      b.sq 52 = BKING ∧ b.bking = 52 ∧
      b.wkcastling = false ∧ b.wqcastling = false ∧
      b.bkcastling = false ∧ b.bqcastling = false) := by
  constructor
  · refine ⟨_, rfl, ?_, ?_, ?_, ?_, ?_, ?_⟩ <;> decide
  · refine ⟨_, rfl, ?_, ?_, ?_, ?_, ?_, ?_⟩ <;> decide

-- C4

/-- C4 (counterexample): at two concrete per-move failures — a move string
the pattern does not match, and a parsed move whose origin resolution finds
no candidate — UpdateBoard ends in the fatal outcome that models log.Fatalf
terminating the process, so no recoverable error value reaches the caller. -/
theorem C4_engine_aborts :
    UpdateBoard InitPgnBoard ⟨1, 1, "zz", ""⟩ = EngineResult.fatal "\t zz not parsed" ∧
    UpdateBoard InitPgnBoard ⟨1, 1, "Ra3", ""⟩ =
      EngineResult.fatal "It was not possible to reproduce the move Ra3" := by
  exact ⟨rfl, rfl⟩

/-- C4 (amended): every per-move engine failure terminates the process via
log.Fatalf, modeled as the fatal outcome: an unmatched move string aborts
with the not-parsed message, and a parsed non-castling move whose origin
resolution fails aborts with the not-reproducible message. -/
theorem C4_failures_are_fatal (board : PgnBoard) (move : PgnMove) :
    (matchString move.moveValue = false →
      UpdateBoard board move = EngineResult.fatal ("\t " ++ move.moveValue ++ " not parsed")) ∧
    (∀ m : MoveMatch, findMatch move.moveValue.data = some m →
      m.g6 ≠ "O-O" → m.g6 ≠ "O-O-O" →
      getOrigin { board with turn := -1 * move.color } (getPieceIndex m.g1 * move.color)
          m.g4 m.g2 (m.g3 = "x") < 0 →
      UpdateBoard board move =
        EngineResult.fatal ("It was not possible to reproduce the move " ++ move.moveValue)) := by
  constructor
  · intro h
    simp only [UpdateBoard, h, Bool.false_eq_true, if_false]
  · intro m hm h6a h6b horigin
    have hms : matchString move.moveValue = true := by
      simp [matchString, hm]
    have hfs : findStringSubmatch move.moveValue = m := by
      simp [findStringSubmatch, hm]
    simp only [UpdateBoard, hms, if_true, hfs, h6a, h6b, if_false, horigin, if_pos]

/-- Witness for C4_failures_are_fatal at the move string zz. -/
theorem C4_failures_are_fatal_witness :
    matchString "zz" = false ∧
    UpdateBoard InitPgnBoard ⟨1, 1, "zz", ""⟩ =
      EngineResult.fatal ("\t " ++ "zz" ++ " not parsed") :=
  ⟨by decide, (C4_failures_are_fatal InitPgnBoard ⟨1, 1, "zz", ""⟩).1 (by decide)⟩

-- C7

set_option maxRecDepth 20000 in
/-- C7: the precomputed reachability geometry is correct for every target
square and piece kind: all origins on-board, sliding rays single-direction,
distance-sorted and edge-maximal, king rays of at most one square, knight
origins a single ray of knight moves. -/
theorem C7_threat_tables_geometry : threatTablesOk = true := by decide

-- C10

/-- C10: with a two-character qualifier (as the decoder produces for moves
like Nb1d2) knight and generic origin resolution never return a candidate:
the acceptance test compares the one-character rank and file strings with
the entire qualifier, so both resolvers return -1 on every board. -/
theorem C10_two_char_qualifier_fails (board : PgnBoard) (piece : Int)
    (target qualifier : String) (capture : Bool) (h : qualifier.length = 2) :
    getOriginKnight board piece target qualifier capture = -1 ∧
    getOriginGeneric board piece target qualifier capture = -1 ∧
    (findStringSubmatch "Nb1d2").g2 = "b1" := by
  have hqual : ∀ loc : Int, ¬(qualifier.length = 0 ∨ (qualifier.length > 0 ∧
      ((getQualifier loc).1 = qualifier ∨ (getQualifier loc).2 = qualifier))) := by
    intro loc hc
    rcases hc with h0 | ⟨-, he | he⟩
    · rw [h] at h0; exact absurd h0 (by decide)
    · have := congrArg String.length he
      rw [getQualifier_fst_length, h] at this
      exact absurd this (by decide)
    · have := congrArg String.length he
      rw [getQualifier_snd_length, h] at this
      exact absurd this (by decide)
  refine ⟨?_, ?_, by decide⟩
  · show knightScan board piece (coords target) qualifier _ = -1
    generalize (threats target piece).getD 0 [] = ray
    induction ray with
    | nil => rfl
    | cons loc rest ih =>
        simp only [knightScan]
        split
        · split
          · exact ih
          · rw [if_neg (hqual loc)]
            exact ih
        · exact ih
  · show genericScanDirs board piece (coords target) qualifier _ = -1
    generalize threats target piece = dirs
    induction dirs with
    | nil => rfl
    | cons direction rest ihdirs =>
        simp only [genericScanDirs]
        have hdir : genericScanDir board piece (coords target) qualifier direction = none := by
          induction direction with
          | nil => rfl
          | cons loc rest2 ihdir =>
              simp only [genericScanDir]
              split
              · split
                · exact ihdir
                · rw [if_neg (hqual loc)]
                  split
                  · rfl
                  · exact ihdir
              · split
                · rfl
                · exact ihdir
        rw [hdir]
        exact ihdirs

/-- Witness for C10_two_char_qualifier_fails at qualifier b1 on the initial
board. -/
theorem C10_two_char_qualifier_fails_witness :
    ("b1" : String).length = 2 ∧
    (getOriginKnight InitPgnBoard WKNIGHT "d2" "b1" false = -1 ∧
     getOriginGeneric InitPgnBoard WKNIGHT "d2" "b1" false = -1 ∧
     (findStringSubmatch "Nb1d2").g2 = "b1") :=
  ⟨by decide, C10_two_char_qualifier_fails InitPgnBoard WKNIGHT "d2" "b1" false (by decide)⟩

-- Castling-flag preservation lemmas shared by C8 and C9

@[simp] theorem setSq_wkcastling (b : PgnBoard) (i v : Int) :
    (b.setSq i v).wkcastling = b.wkcastling := by
  unfold PgnBoard.setSq; split <;> rfl

@[simp] theorem setSq_wqcastling (b : PgnBoard) (i v : Int) :
    (b.setSq i v).wqcastling = b.wqcastling := by
  unfold PgnBoard.setSq; split <;> rfl

@[simp] theorem setSq_bkcastling (b : PgnBoard) (i v : Int) :
    (b.setSq i v).bkcastling = b.bkcastling := by
  unfold PgnBoard.setSq; split <;> rfl

@[simp] theorem setSq_bqcastling (b : PgnBoard) (i v : Int) :
    (b.setSq i v).bqcastling = b.bqcastling := by
  unfold PgnBoard.setSq; split <;> rfl

theorem rightsMono_refl (b : PgnBoard) : rightsMono b b := ⟨id, id, id, id⟩

theorem rightsMono_trans {a b c : PgnBoard} (h1 : rightsMono a b) (h2 : rightsMono b c) :
    rightsMono a c :=
  ⟨fun h => h2.1 (h1.1 h), fun h => h2.2.1 (h1.2.1 h),
   fun h => h2.2.2.1 (h1.2.2.1 h), fun h => h2.2.2.2 (h1.2.2.2 h)⟩

theorem rightsMono_of_flags_eq {b b' : PgnBoard} (h1 : b'.wkcastling = b.wkcastling)
    (h2 : b'.wqcastling = b.wqcastling) (h3 : b'.bkcastling = b.bkcastling)
    (h4 : b'.bqcastling = b.bqcastling) : rightsMono b b' :=
  ⟨fun h => h1.trans h, fun h => h2.trans h, fun h => h3.trans h, fun h => h4.trans h⟩

theorem rightsMono_updateShortCastling (b : PgnBoard) (c : Int) :
    rightsMono b (updateShortCastling b c) := by
  unfold updateShortCastling
  split <;> exact rightsMono_of_flags_eq (by simp) (by simp) (by simp) (by simp)

theorem rightsMono_updateLongCastling (b : PgnBoard) (c : Int) :
    rightsMono b (updateLongCastling b c) := by
  unfold updateLongCastling
  split <;> exact rightsMono_of_flags_eq (by simp) (by simp) (by simp) (by simp)

theorem rightsMono_clearCastlingFlags (b : PgnBoard) :
    rightsMono b (clearCastlingFlags b) := by
  unfold clearCastlingFlags
  split
  · exact ⟨fun _ => rfl, fun _ => rfl, id, id⟩
  · split
    · exact ⟨id, id, fun _ => rfl, fun _ => rfl⟩
    · exact rightsMono_refl b

theorem rightsMono_applyCastlingFlagsWhite (b : PgnBoard) (m1 : String) (o : Int) :
    rightsMono b (applyCastlingFlagsWhite b m1 o) := by
  unfold applyCastlingFlagsWhite
  split
  · split
    · exact ⟨fun _ => rfl, fun _ => rfl, id, id⟩
    · split
      · exact ⟨fun _ => rfl, id, id, id⟩
      · split
        · exact ⟨id, fun _ => rfl, id, id⟩
        · exact rightsMono_refl b
  · exact rightsMono_refl b

theorem rightsMono_applyCastlingFlagsBlack (b : PgnBoard) (m1 : String) (c o : Int) :
    rightsMono b (applyCastlingFlagsBlack b m1 c o) := by
  unfold applyCastlingFlagsBlack
  split
  · split
    · exact ⟨id, id, fun _ => rfl, fun _ => rfl⟩
    · split
      · exact ⟨id, id, fun _ => rfl, id⟩
      · split
        · exact ⟨id, fun _ => rfl, id, id⟩
        · exact rightsMono_refl b
  · exact rightsMono_refl b



/-- C9: across every UpdateBoard call that produces a board, each of the
four castling-rights flags is monotone non-increasing: a flag that is false
before the call is still false after it — no path of the engine ever
assigns true to a flag after board creation. -/
theorem C9_castling_rights_monotone (b : PgnBoard) (move : PgnMove) (b' : PgnBoard)
    (h : UpdateBoard b move = EngineResult.ok b') : rightsMono b b' := by
  unfold UpdateBoard at h
  split at h
  case isFalse => exact absurd h (by simp)
  case isTrue hm =>
    dsimp only at h
    have hb1 : rightsMono b { b with turn := -1 * move.color } := ⟨id, id, id, id⟩
    by_cases h6 : (findStringSubmatch move.moveValue).g6 = "O-O"
    · rw [if_pos h6, EngineResult.ok.injEq] at h
      subst h
      exact rightsMono_trans hb1 (rightsMono_trans
        (rightsMono_clearCastlingFlags _) (rightsMono_updateShortCastling _ _))
    · rw [if_neg h6] at h
      by_cases h66 : (findStringSubmatch move.moveValue).g6 = "O-O-O"
      · rw [if_pos h66, EngineResult.ok.injEq] at h
        subst h
        exact rightsMono_trans hb1 (rightsMono_trans
          (rightsMono_clearCastlingFlags _) (rightsMono_updateLongCastling _ _))
      · rw [if_neg h66] at h
        split at h
        · exact absurd h (by simp)
        · rw [EngineResult.ok.injEq] at h
          subst h
          refine rightsMono_trans ?_ (rightsMono_trans
            (rightsMono_applyCastlingFlagsWhite _ _ _)
            (rightsMono_applyCastlingFlagsBlack _ _ _ _))
          refine rightsMono_of_flags_eq ?_ ?_ ?_ ?_ <;>
            simp [apply_ite PgnBoard.wkcastling, apply_ite PgnBoard.wqcastling,
                  apply_ite PgnBoard.bkcastling, apply_ite PgnBoard.bqcastling]

/-- Witness for C9_castling_rights_monotone: Black O-O on a board whose
white kingside flag is already false. -/
theorem C9_castling_rights_monotone_witness :
    UpdateBoard boardC9 ⟨1, -1, "O-O", ""⟩ = EngineResult.ok boardC9r ∧
      rightsMono boardC9 boardC9r :=
  ⟨by decide, C9_castling_rights_monotone boardC9 ⟨1, -1, "O-O", ""⟩ boardC9r (by decide)⟩

-- C6

/-- C6 (counterexample): on boardC6 the only square from which a white
knight reaches c3 is e4 = 28, that knight is pinned, and resolution does
not return it: it is skipped even as the sole candidate and resolution
fails with -1. -/
theorem C6_sole_pinned_candidate_fails :
    isPinned boardC6 28 (coords "c3") = true ∧
    boardC6.sq 28 = WKNIGHT ∧
    (∀ l ∈ (threats "c3" WKNIGHT).getD 0 [], boardC6.sq l = WKNIGHT → l = 28) ∧
    getOriginKnight boardC6 WKNIGHT "c3" "" false = -1 := by
  exact ⟨by decide, by decide, by decide, by decide⟩

/-- A value returned by the knight scan is an occupied, unpinned candidate. -/
theorem knightScan_sound (board : PgnBoard) (piece targetIdx : Int) (qualifier : String) :
    ∀ ray loc, knightScan board piece targetIdx qualifier ray = loc → loc ≠ -1 →
      loc ∈ ray ∧ board.sq loc = piece ∧ isPinned board loc targetIdx = false := by
  intro ray
  induction ray with
  | nil => intro loc h hne; exact absurd h.symm hne
  | cons a rest ih =>
      intro loc h hne
      simp only [knightScan] at h
      split at h
      case isTrue hocc =>
        split at h
        case isTrue hpin =>
          obtain ⟨h1, h2, h3⟩ := ih loc h hne
          exact ⟨List.mem_cons_of_mem a h1, h2, h3⟩
        case isFalse hpin =>
          split at h
          case isTrue hq =>
            subst h
            exact ⟨List.mem_cons_self a rest, hocc, Bool.not_eq_true _ ▸ hpin⟩
          case isFalse hq =>
            obtain ⟨h1, h2, h3⟩ := ih loc h hne
            exact ⟨List.mem_cons_of_mem a h1, h2, h3⟩
      case isFalse hocc =>
        obtain ⟨h1, h2, h3⟩ := ih loc h hne
        exact ⟨List.mem_cons_of_mem a h1, h2, h3⟩

/-- When every occupied candidate other than u is pinned and u is not, the
knight scan without qualifier returns u. -/
theorem knightScan_unique (board : PgnBoard) (piece targetIdx u : Int)
    (huocc : board.sq u = piece) (hupin : isPinned board u targetIdx = false) :
    ∀ ray, u ∈ ray →
      (∀ l ∈ ray, board.sq l = piece → l = u ∨ isPinned board l targetIdx = true) →
      knightScan board piece targetIdx "" ray = u := by
  intro ray
  induction ray with
  | nil => intro hmem _; exact absurd hmem (List.not_mem_nil u)
  | cons a rest ih =>
      intro hmem hall
      simp only [knightScan]
      by_cases hocc : board.sq a = piece
      · rw [if_pos hocc]
        rcases hall a (List.mem_cons_self a rest) hocc with ha | hpin
        · subst ha
          rw [if_neg (by rw [hupin]; exact Bool.false_ne_true), if_pos (Or.inl (by decide))]
        · rw [if_pos hpin]
          have hau : a ≠ u := fun he => by rw [he, hupin] at hpin; exact Bool.false_ne_true hpin
          refine ih ?_ fun l hl ho => hall l (List.mem_cons_of_mem a hl) ho
          rcases List.mem_cons.mp hmem with he | hr
          · exact absurd he.symm hau
          · exact hr
      · rw [if_neg hocc]
        have hau : a ≠ u := fun he => hocc (he ▸ huocc)
        refine ih ?_ fun l hl ho => hall l (List.mem_cons_of_mem a hl) ho
        rcases List.mem_cons.mp hmem with he | hr
        · exact absurd he.symm hau
        · exact hr

/-- A value returned by one direction of the generic scan is an occupied,
unpinned candidate. -/
theorem genericScanDir_sound (board : PgnBoard) (piece targetIdx : Int) (qualifier : String) :
    ∀ dir loc, genericScanDir board piece targetIdx qualifier dir = some loc →
      board.sq loc = piece ∧ isPinned board loc targetIdx = false := by
  intro dir
  induction dir with
  | nil => intro loc h; exact absurd h (by simp [genericScanDir])
  | cons a rest ih =>
      intro loc h
      simp only [genericScanDir] at h
      split at h
      case isTrue hocc =>
        split at h
        case isTrue hpin => exact ih loc h
        case isFalse hpin =>
          split at h
          case isTrue hq =>
            cases h
            exact ⟨hocc, Bool.not_eq_true _ ▸ hpin⟩
          case isFalse hq =>
            split at h
            case isTrue => exact absurd h (by simp)
            case isFalse => exact ih loc h
      case isFalse hocc =>
        split at h
        case isTrue => exact absurd h (by simp)
        case isFalse => exact ih loc h

/-- A value returned by the whole generic scan is an occupied, unpinned
candidate. -/
theorem genericScanDirs_sound (board : PgnBoard) (piece targetIdx : Int) (qualifier : String) :
    ∀ dirs loc, genericScanDirs board piece targetIdx qualifier dirs = loc → loc ≠ -1 →
      board.sq loc = piece ∧ isPinned board loc targetIdx = false := by
  intro dirs
  induction dirs with
  | nil => intro loc h hne; exact absurd h.symm hne
  | cons dir rest ih =>
      intro loc h hne
      rcases hd : genericScanDir board piece targetIdx qualifier dir with _ | l
      · simp only [genericScanDirs, hd] at h
        exact ih loc h hne
      · simp only [genericScanDirs, hd] at h
        cases h
        exact genericScanDir_sound board piece targetIdx qualifier dir loc hd

/-- C6 (amended): pinned candidates are always skipped — a returned origin
of the knight resolver or of the generic resolver is never pinned (even a
sole pinned candidate is not returned; resolution fails instead) — and pin
filtering precedes qualifier filtering: when, among the knight candidates
for a target, every occupied square except the unpinned u is pinned, the
resolver without qualifier returns u. -/
theorem C6_pin_filtering (board : PgnBoard) (piece : Int) (target qualifier : String)
    (capture : Bool) :
    (getOriginKnight board piece target qualifier capture ≠ -1 →
      board.sq (getOriginKnight board piece target qualifier capture) = piece ∧
      isPinned board (getOriginKnight board piece target qualifier capture)
        (coords target) = false) ∧
    (getOriginGeneric board piece target qualifier capture ≠ -1 →
      board.sq (getOriginGeneric board piece target qualifier capture) = piece ∧
      isPinned board (getOriginGeneric board piece target qualifier capture)
        (coords target) = false) ∧
    (∀ u : Int, u ∈ (threats target piece).getD 0 [] → board.sq u = piece →
      isPinned board u (coords target) = false →
      (∀ l ∈ (threats target piece).getD 0 [], board.sq l = piece →
        l = u ∨ isPinned board l (coords target) = true) →
      getOriginKnight board piece target "" capture = u) := by
  refine ⟨fun hne => ?_, fun hne => ?_, fun u hu huocc hupin hall => ?_⟩
  · exact (knightScan_sound board piece (coords target) qualifier _ _ rfl hne).2
  · exact genericScanDirs_sound board piece (coords target) qualifier _ _ rfl hne
  · exact knightScan_unique board piece (coords target) u huocc hupin _ hu hall

/-- Witness for C6_pin_filtering: on boardC6w the pinned e4 knight and the
unpinned b1 knight both reach c3, and resolution without qualifier returns
b1 = 1, an occupied unpinned square. -/
theorem C6_pin_filtering_witness :
    getOriginKnight boardC6w WKNIGHT "c3" "" false = 1 ∧
    (getOriginKnight boardC6w WKNIGHT "c3" "" false ≠ -1 →
      boardC6w.sq (getOriginKnight boardC6w WKNIGHT "c3" "" false) = WKNIGHT ∧
      isPinned boardC6w (getOriginKnight boardC6w WKNIGHT "c3" "" false)
        (coords "c3") = false) :=
  ⟨(C6_pin_filtering boardC6w WKNIGHT "c3" "" false).2.2 1 (by decide) (by decide)
      (by decide) (by decide),
   (C6_pin_filtering boardC6w WKNIGHT "c3" "" false).1⟩

-- Square access lemmas shared by C8

theorem sq_neg (b : PgnBoard) (i : Int) (h : i < 0) : b.sq i = 0 := by
  unfold PgnBoard.sq; rw [if_pos h]

theorem setSq_length (b : PgnBoard) (i v : Int) :
    (b.setSq i v).squares.length = b.squares.length := by
  unfold PgnBoard.setSq; split <;> simp

theorem setSq_sq_self (b : PgnBoard) (i v : Int) (h0 : 0 ≤ i) (h1 : i < 64)
    (hlen : b.squares.length = 64) : (b.setSq i v).sq i = v := by
  unfold PgnBoard.setSq PgnBoard.sq
  rw [if_neg (by omega), if_neg (by omega)]
  have hi : i.toNat < b.squares.length := by omega
  simp [List.getD, List.getElem?_set_self hi]

theorem setSq_sq_ne (b : PgnBoard) (i j v : Int) (h : i ≠ j) :
    (b.setSq i v).sq j = b.sq j := by
  unfold PgnBoard.setSq PgnBoard.sq
  by_cases hi : i < 0
  · rw [if_pos hi]
  · rw [if_neg hi]
    by_cases hj : j < 0
    · rw [if_pos hj, if_pos hj]
    · rw [if_neg hj, if_neg hj]
      have : i.toNat ≠ j.toNat := by omega
      simp [List.getD, List.getElem?_set_ne this]

theorem applyCastlingFlagsWhite_sq (b : PgnBoard) (m1 : String) (o i : Int) :
    (applyCastlingFlagsWhite b m1 o).sq i = b.sq i := by
  unfold applyCastlingFlagsWhite
  split
  · split
    · rfl
    · split
      · rfl
      · split <;> rfl
  · rfl

theorem applyCastlingFlagsBlack_sq (b : PgnBoard) (m1 : String) (c o i : Int) :
    (applyCastlingFlagsBlack b m1 c o).sq i = b.sq i := by
  unfold applyCastlingFlagsBlack
  split
  · split
    · rfl
    · split
      · rfl
      · split <;> rfl
  · rfl

theorem coords_bounds (s : String) : 0 ≤ coords s ∧ coords s < 64 := by
  unfold coords
  split
  next cf cr heq =>
    split
    next h =>
      rw [Bool.and_eq_true] at h
      have hf := of_decide_eq_true h.1
      have hr := of_decide_eq_true h.2
      have hf1 : 97 ≤ cf.toNat := hf.1
      have hf2 : cf.toNat ≤ 104 := hf.2
      have hr1 : 49 ≤ cr.toNat := hr.1
      have hr2 : cr.toNat ≤ 56 := hr.2
      have e1 : '1'.toNat = 49 := rfl
      have e2 : 'a'.toNat = 97 := rfl
      rw [e1, e2]
      constructor <;> omega
    next h => exact ⟨le_refl 0, by omega⟩
  next => exact ⟨le_refl 0, by omega⟩

theorem sq_ge (b : PgnBoard) (i : Int) (h : 64 ≤ i) (hlen : b.squares.length = 64) :
    b.sq i = 0 := by
  unfold PgnBoard.sq
  rw [if_neg (by omega)]
  exact List.getD_eq_default _ _ (by omega)

/-- C8: whenever UpdateBoard applies a decoded pawn capture (no promotion
suffix) whose target square holds BLANK at the moment of application, the
resulting board has the capturing pawn on the target square and BLANK one
rank behind the target relative to the mover's direction (target - 8 for
White, target + 8 for Black). -/
theorem C8_en_passant (board : PgnBoard) (move : PgnMove) (m : MoveMatch)
    (hlen : board.squares.length = 64)
    (hm : findMatch move.moveValue.data = some m)
    (h6a : m.g6 ≠ "O-O") (h6b : m.g6 ≠ "O-O-O")
    (hp : getPieceIndex m.g1 = WPAWN)
    (hx : m.g3 = "x")
    (h5 : m.g5 = "")
    (horigin : ¬ getOrigin { board with turn := -1 * move.color }
        (getPieceIndex m.g1 * move.color) m.g4 m.g2 (decide (m.g3 = "x")) < 0)
    (hblank : ({ board with turn := -1 * move.color }.setSq
        (getOrigin { board with turn := -1 * move.color }
          (getPieceIndex m.g1 * move.color) m.g4 m.g2 (decide (m.g3 = "x"))) BLANK).sq
        (coords m.g4) = BLANK) :
    ∃ b' : PgnBoard, UpdateBoard board move = EngineResult.ok b' ∧
      b'.sq (coords m.g4) = WPAWN * move.color ∧
      (move.color > 0 → b'.sq (coords m.g4 - 8) = BLANK) ∧
      (¬move.color > 0 → b'.sq (coords m.g4 + 8) = BLANK) := by
  have hms : matchString move.moveValue = true := by simp [matchString, hm]
  have hfs : findStringSubmatch move.moveValue = m := by simp [findStringSubmatch, hm]
  have hk : m.g1 ≠ "K" := fun he => by rw [he] at hp; exact absurd hp (by decide)
  have h5' : ¬m.g5.length > 0 := by rw [h5]; decide
  unfold UpdateBoard
  rw [if_pos hms]
  dsimp only
  rw [hfs, if_neg h6a, if_neg h6b, if_neg horigin, if_neg h5']
  rw [if_pos (And.intro hp (And.intro hx hblank))]
  rw [if_neg hk]
  by_cases hcolor : move.color > 0
  · rw [if_pos hcolor]
    refine ⟨_, rfl, ?_, fun _ => ?_, fun hc => absurd hcolor hc⟩
    · rw [applyCastlingFlagsBlack_sq, applyCastlingFlagsWhite_sq, hp]
      exact setSq_sq_self _ _ _ (coords_bounds m.g4).1 (coords_bounds m.g4).2
        (by simp [setSq_length, hlen])
    · rw [applyCastlingFlagsBlack_sq, applyCastlingFlagsWhite_sq,
        setSq_sq_ne _ _ _ _ (by omega)]
      by_cases hneg : coords m.g4 - 8 < 0
      · exact sq_neg _ _ hneg
      · exact setSq_sq_self _ _ _ (by omega) (by have := (coords_bounds m.g4).2; omega)
          (by simp [setSq_length, hlen])
  · rw [if_neg hcolor]
    refine ⟨_, rfl, ?_, fun hc => absurd hc hcolor, fun _ => ?_⟩
    · rw [applyCastlingFlagsBlack_sq, applyCastlingFlagsWhite_sq, hp]
      exact setSq_sq_self _ _ _ (coords_bounds m.g4).1 (coords_bounds m.g4).2
        (by simp [setSq_length, hlen])
    · rw [applyCastlingFlagsBlack_sq, applyCastlingFlagsWhite_sq,
        setSq_sq_ne _ _ _ _ (by omega)]
      by_cases hge : coords m.g4 + 8 < 64
      · exact setSq_sq_self _ _ _ (by have := (coords_bounds m.g4).1; omega) hge
          (by simp [setSq_length, hlen])
      · exact sq_ge _ _ (by omega) (by simp [setSq_length, hlen])

/-- Witness for C8_en_passant: after 1. e-pawn to e5 and ...d7-d5, White's
exd6 captures en passant: the pawn lands on d6 and d5 is emptied. -/
theorem C8_en_passant_witness :
    ∃ b' : PgnBoard, UpdateBoard boardC8 ⟨1, 1, "exd6", ""⟩ = EngineResult.ok b' ∧
      b'.sq (coords "d6") = WPAWN * (1 : Int) ∧
      ((1 : Int) > 0 → b'.sq (coords "d6" - 8) = BLANK) ∧
      (¬(1 : Int) > 0 → b'.sq (coords "d6" + 8) = BLANK) :=
  C8_en_passant boardC8 ⟨1, 1, "exd6", ""⟩ ⟨"", "e", "x", "d6", "", "", ""⟩
    (by decide) (by decide) (by decide) (by decide) (by decide) (by decide) (by decide)
    (by decide) (by decide)

theorem queen_mul_color_ne_blank (attacker : Int) : WQUEEN * getColor attacker ≠ BLANK := by
  unfold getColor; split <;> decide

theorem pinScanRay_contains_true (board : PgnBoard) (location dest attacker : Int)
    (fullray : List Int) (h : contains fullray dest = true) :
    ∀ rest found, pinScanRay board location dest attacker fullray rest found = false := by
  intro rest
  induction rest with
  | nil => intro found; rfl
  | cons square rest ih =>
      intro found
      simp only [pinScanRay]
      split
      · exact ih true
      · rw [if_neg fun hcnd => by rw [hcnd.2.1] at h; exact absurd h (by decide)]
        split
        · rfl
        · exact ih found

theorem pinScanRay_found_iff (board : PgnBoard) (location dest attacker : Int)
    (fullray : List Int) (hc : contains fullray dest = false) (hatt0 : attacker ≠ BLANK) :
    ∀ rest, location ∉ rest →
      (pinScanRay board location dest attacker fullray rest true = true ↔
        ∃ mid x post, rest = mid ++ x :: post ∧ (∀ y ∈ mid, board.sq y = BLANK) ∧
          (board.sq x = attacker ∨ board.sq x = WQUEEN * getColor attacker)) := by
  intro rest
  induction rest with
  | nil =>
      intro _
      simp only [pinScanRay]
      constructor
      · intro hfalse; exact absurd hfalse (by decide)
      · rintro ⟨mid, x, post, heq, -, -⟩
        exact absurd heq (by simp)
  | cons square rest ih =>
      intro hnot
      have hne : square ≠ location := fun he => hnot (he ▸ List.mem_cons_self square rest)
      have hnot' : location ∉ rest := fun hmem => hnot (List.mem_cons_of_mem _ hmem)
      simp only [pinScanRay]
      rw [if_neg hne]
      by_cases hatt : board.sq square = attacker ∨ board.sq square = WQUEEN * getColor attacker
      · rw [if_pos (by exact ⟨by trivial, hc, hatt⟩)]
        constructor
        · intro _
          refine ⟨[], square, rest, rfl, ?_, hatt⟩
          simp
        · intro _; rfl
      · rw [if_neg fun hcnd => hatt hcnd.2.2]
        by_cases hblank : board.sq square = BLANK
        · rw [if_neg (by simpa using hblank)]
          rw [ih hnot']
          constructor
          · rintro ⟨mid, x, post, heq, hmid, hx⟩
            refine ⟨square :: mid, x, post, by rw [heq]; rfl, ?_, hx⟩
            intro y hy
            rcases List.mem_cons.mp hy with hy | hy
            · rw [hy]; exact hblank
            · exact hmid y hy
          · rintro ⟨mid, x, post, heq, hmid, hx⟩
            cases mid with
            | nil =>
                injection heq with h1 h2
                exact absurd (h1 ▸ hx) hatt
            | cons mhead mtail =>
                injection heq with h1 h2
                exact ⟨mtail, x, post, h2, fun y hy => hmid y (List.mem_cons_of_mem _ hy), hx⟩
        · rw [if_pos (by simpa using hblank)]
          constructor
          · intro hfalse; exact absurd hfalse (by decide)
          · rintro ⟨mid, x, post, heq, hmid, hx⟩
            cases mid with
            | nil =>
                injection heq with h1 h2
                exact absurd (h1 ▸ hx) hatt
            | cons mhead mtail =>
                injection heq with h1 h2
                exact (hblank (h1 ▸ hmid mhead (List.mem_cons_self _ _))).elim

theorem pinScanRay_iff (board : PgnBoard) (location dest attacker : Int)
    (fullray : List Int) (hc : contains fullray dest = false) (hatt0 : attacker ≠ BLANK) :
    ∀ rest, rest.Nodup →
      (pinScanRay board location dest attacker fullray rest false = true ↔
        ∃ pre mid x post, rest = pre ++ location :: (mid ++ x :: post) ∧
          (∀ y ∈ pre, board.sq y = BLANK) ∧ (∀ y ∈ mid, board.sq y = BLANK) ∧
          (board.sq x = attacker ∨ board.sq x = WQUEEN * getColor attacker)) := by
  intro rest
  induction rest with
  | nil =>
      intro _
      simp only [pinScanRay]
      constructor
      · intro hfalse; exact absurd hfalse (by decide)
      · rintro ⟨pre, mid, x, post, heq, -, -, -⟩
        exact absurd heq (by simp)
  | cons square rest ih =>
      intro hnd
      have hndrest : rest.Nodup := (List.nodup_cons.mp hnd).2
      have hsqnot : square ∉ rest := (List.nodup_cons.mp hnd).1
      simp only [pinScanRay]
      by_cases hsl : square = location
      · subst hsl
        rw [if_pos rfl]
        rw [pinScanRay_found_iff board square dest attacker fullray hc hatt0 rest hsqnot]
        constructor
        · rintro ⟨mid, x, post, heq, hmid, hx⟩
          refine ⟨[], mid, x, post, by rw [heq]; rfl, ?_, hmid, hx⟩
          simp
        · rintro ⟨pre, mid, x, post, heq, hpre, hmid, hx⟩
          cases pre with
          | nil =>
              injection heq with h1 h2
              exact ⟨mid, x, post, h2, hmid, hx⟩
          | cons phead ptail =>
              injection heq with h1 h2
              exact absurd (h2 ▸ List.mem_append_right ptail (List.mem_cons_self _ _)) hsqnot
      · rw [if_neg hsl]
        rw [if_neg fun hcnd => by simpa using hcnd.1]
        by_cases hblank : board.sq square = BLANK
        · rw [if_neg (by simpa using hblank)]
          rw [ih hndrest]
          constructor
          · rintro ⟨pre, mid, x, post, heq, hpre, hmid, hx⟩
            refine ⟨square :: pre, mid, x, post, by rw [heq]; rfl, ?_, hmid, hx⟩
            intro y hy
            rcases List.mem_cons.mp hy with hy | hy
            · rw [hy]; exact hblank
            · exact hpre y hy
          · rintro ⟨pre, mid, x, post, heq, hpre, hmid, hx⟩
            cases pre with
            | nil =>
                injection heq with h1 h2
                exact absurd h1 hsl
            | cons phead ptail =>
                injection heq with h1 h2
                exact ⟨ptail, mid, x, post, h2,
                  fun y hy => hpre y (List.mem_cons_of_mem _ hy), hmid, hx⟩
        · rw [if_pos (by simpa using hblank)]
          constructor
          · intro hfalse; exact absurd hfalse (by decide)
          · rintro ⟨pre, mid, x, post, heq, hpre, hmid, hx⟩
            cases pre with
            | nil =>
                injection heq with h1 h2
                exact absurd h1 hsl
            | cons phead ptail =>
                injection heq with h1 h2
                exact (hblank (h1 ▸ hpre phead (List.mem_cons_self _ _))).elim

theorem isPinnedGeneric_iff (board : PgnBoard) (location dest attacker : Int)
    (tl : List (List Int)) (hnd : ∀ ray ∈ tl, ray.Nodup) (hatt0 : attacker ≠ BLANK) :
    (isPinnedGeneric board location dest attacker tl = true ↔
      ∃ ray ∈ tl, pinnedRaySpec board location dest attacker ray) := by
  unfold isPinnedGeneric
  rw [List.any_eq_true]
  constructor
  · rintro ⟨ray, hray, hscan⟩
    refine ⟨ray, hray, ?_⟩
    by_cases hcdest : contains ray dest = true
    · rw [pinScanRay_contains_true board location dest attacker ray hcdest ray false] at hscan
      exact absurd hscan (by decide)
    · have hcf : contains ray dest = false := by
        cases hcb : contains ray dest
        · rfl
        · exact absurd hcb hcdest
      obtain ⟨pre, mid, x, post, heq, hpre, hmid, hx⟩ :=
        (pinScanRay_iff board location dest attacker ray hcf hatt0 ray (hnd ray hray)).mp hscan
      have hnotmem : dest ∉ ray := by
        intro hmem
        have hct := (contains_iff_mem ray dest).mpr hmem
        rw [hct] at hcf
        exact absurd hcf (by decide)
      exact ⟨hnotmem, pre, mid, x, post, heq, hpre, hmid, hx⟩
  · rintro ⟨ray, hray, hnotmem, pre, mid, x, post, heq, hpre, hmid, hx⟩
    have hcf : contains ray dest = false := by
      cases hcb : contains ray dest
      · rfl
      · exact absurd ((contains_iff_mem ray dest).mp hcb) hnotmem
    refine ⟨ray, hray, ?_⟩
    exact (pinScanRay_iff board location dest attacker ray hcf hatt0 ray (hnd ray hray)).mpr
      ⟨pre, mid, x, post, heq, hpre, hmid, hx⟩

set_option maxRecDepth 20000 in
theorem getThreat_rays_nodup : ∀ n : Fin 64, ∀ p ∈ allPieceCodes,
    ∀ ray ∈ getThreat ((n : Nat) : Int) p, ray.Nodup := by decide

theorem threats_ray_nodup (t : String) (p : Int) : ∀ ray ∈ threats t p, ray.Nodup := by
  unfold threats
  split
  case isTrue h =>
    obtain ⟨hsq, hp1, hp2, hp3⟩ := h
    have hb := coords_bounds t
    have hpmem : p ∈ allPieceCodes := by simp only [allPieceCodes, List.mem_cons]; omega
    intro ray hray
    have hcast : (((⟨(coords t).toNat, by omega⟩ : Fin 64) : Nat) : Int) = coords t := by
      simp; omega
    have := getThreat_rays_nodup ⟨(coords t).toNat, by omega⟩ p hpmem ray
    rw [hcast] at this
    exact this hray
  case isFalse h => intro ray hray; exact absurd hray (List.not_mem_nil ray)

/-- C5 (amended): for every board and occupied square, isPinned returns
true exactly when some bishop-geometry or rook-geometry ray from the
friendly king passes through the square with only blanks before it and,
with the square's piece conceptually removed, the first occupied square
beyond it on the ray holds the matching opposing slider or queen — except
that it returns false whenever the destination lies anywhere on that ray
(not only between the pinning piece and the king). -/
theorem C5_pin_detector (board : PgnBoard) (location dest : Int)
    (h : board.sq location ≠ BLANK) :
    (isPinned board location dest = true ↔ pinnedSpec board location dest) := by
  unfold isPinned pinnedSpec
  by_cases hcol : getColor (board.sq location) < 0
  · rw [if_pos hcol, if_pos hcol, Bool.or_eq_true,
      isPinnedGeneric_iff board location dest WBISHOP _
        (threats_ray_nodup (literal board.bking) WBISHOP) (by decide),
      isPinnedGeneric_iff board location dest WROOK _
        (threats_ray_nodup (literal board.bking) WROOK) (by decide)]
  · rw [if_neg hcol, if_neg hcol, Bool.or_eq_true,
      isPinnedGeneric_iff board location dest BBISHOP _
        (threats_ray_nodup (literal board.wking) BBISHOP) (by decide),
      isPinnedGeneric_iff board location dest BROOK _
        (threats_ray_nodup (literal board.wking) BROOK) (by decide)]

/-- C5 (counterexample): on boardC5 the white rook e4 = 28 satisfies the
claim's pin condition for the destination e8 = 60 — the e-file ray from
the king pins it and e8 does not lie between the pinning rook e7 and the
king — yet isPinned returns false, because the code discounts a
destination lying anywhere on the ray, beyond the pinner included. -/
theorem C5_claim_counterexample :
    pinnedPerClaim boardC5 28 60 ∧ isPinned boardC5 28 60 = false := by
  constructor
  · unfold pinnedPerClaim
    rw [if_neg (by decide)]
    refine Or.inr ⟨[12, 20, 28, 36, 44, 52, 60], by decide,
      [12, 20], [36, 44], 52, [60], ⟨by decide, by decide, by decide, Or.inl (by decide)⟩,
      by decide⟩
  · decide

/-- Witness for C5_pin_detector at the pinned rook of boardC5 moving off
the pin ray. -/
theorem C5_pin_detector_witness :
    boardC5.sq 28 ≠ BLANK ∧
      (isPinned boardC5 28 29 = true ↔ pinnedSpec boardC5 28 29) :=
  ⟨by decide, C5_pin_detector boardC5 28 29 (by decide)⟩
